import Mathlib

/-
Verification of the hardig web-lite read-side modules: the rate-bucket
evaluator and KeyState/RateBucket decoders (web-lite/src/rateLimits.js),
the MPL-Core asset attribute scanner, discovery candidate collection and
promo decoding (web-lite/src/discovery.js), and the permission-mask
constants (web-lite/src/utils.js).

Modelling conventions:
  - raw account data is a List Nat of byte values;
  - public keys are 32-byte lists; the base58 string encoding used by
    PublicKey.toString and the inverse parse used by new PublicKey(s)
    are abstracted as parameters (pkStr, pkOfStr) of the discovery model;
  - JS numbers holding u64 fields are modelled by the exact IEEE-754
    round-to-nearest-even conversion jsNumberOfU64 applied by Number();
  - arithmetic that JS performs on in-range integers is modelled on
    Nat and Int.
-/

namespace Hardig

set_option maxRecDepth 80000

/-- data.slice(a, b) on a byte array: bytes a (inclusive) to b (exclusive). -/
def jsSlice (data : List Nat) (a b : Nat) : List Nat :=
  (data.drop a).take (b - a)

/-- DataView.getUint32(i, true): little-endian u32 read, total form used where
the caller has already bounds-checked (missing bytes read as 0). -/
def readU32LE (data : List Nat) (i : Nat) : Nat :=
  data.getD i 0 + data.getD (i + 1) 0 * 256 + data.getD (i + 2) 0 * 65536 +
    data.getD (i + 3) 0 * 16777216

/-- DataView.getBigUint64(i, true): little-endian u64 read, total form used
where the caller has already bounds-checked. -/
def readU64LE (data : List Nat) (i : Nat) : Nat :=
  data.getD i 0 + data.getD (i + 1) 0 * 256 + data.getD (i + 2) 0 * 65536 +
    data.getD (i + 3) 0 * 16777216 + data.getD (i + 4) 0 * 4294967296 +
    data.getD (i + 5) 0 * 1099511627776 + data.getD (i + 6) 0 * 281474976710656 +
    data.getD (i + 7) 0 * 72057594037927936

/-- Checked little-endian u32 read: none when any of the four bytes is out of
bounds. Used by the attribute scanner to make bounds safety provable. -/
def readU32At (data : List Nat) (i : Nat) : Option Nat :=
  match data[i]?, data[i + 1]?, data[i + 2]?, data[i + 3]? with
  | some b0, some b1, some b2, some b3 =>
      some (b0 + b1 * 256 + b2 * 65536 + b3 * 16777216)
  | _, _, _, _ => none

/-- Checked byte-by-byte comparison of data[start ..] against needle; none when
a compared index is out of bounds, otherwise whether all bytes matched. -/
def bytesEqAt (data : List Nat) (start : Nat) : List Nat → Option Bool
  | [] => some true
  | b :: bs =>
    match data[start]? with
    | none => none
    | some x => if x ≠ b then some false else bytesEqAt data (start + 1) bs

/-- Checked slice of n bytes starting at s: none when it would run past the
end of the buffer. -/
def sliceAt (data : List Nat) (s n : Nat) : Option (List Nat) :=
  if s + n ≤ data.length then some ((data.drop s).take n) else none

/-- The 8-byte little-endian encoding of a u64 value. -/
def encodeU64LE (n : Nat) : List Nat :=
  [n % 256, n / 256 % 256, n / 65536 % 256, n / 16777216 % 256,
   n / 4294967296 % 256, n / 1099511627776 % 256, n / 281474976710656 % 256,
   n / 72057594037927936 % 256]

/-- Number of low-order bits dropped when a u64 value n of at least 2 ^ 53 is
rounded to a 53-bit double significand: floor(log2 n) - 52, written as
explicit range comparisons. -/
def u64Shift (n : Nat) : Nat :=
  if n < 2 ^ 54 then 1 else if n < 2 ^ 55 then 2 else if n < 2 ^ 56 then 3
  else if n < 2 ^ 57 then 4 else if n < 2 ^ 58 then 5 else if n < 2 ^ 59 then 6
  else if n < 2 ^ 60 then 7 else if n < 2 ^ 61 then 8 else if n < 2 ^ 62 then 9
  else if n < 2 ^ 63 then 10 else 11

/-- The exact value JS Number(x) produces for a u64 BigInt x: IEEE-754 double
rounding (round to nearest, ties to even) of the integer, which is the
identity below 2 ^ 53 and drops low-order bits above it. -/
def jsNumberOfU64 (n : Nat) : Nat :=
  if n < 2 ^ 53 then n
  else
    let shift := u64Shift n
    let q := n / 2 ^ shift
    let r := n % 2 ^ shift
    let half := 2 ^ (shift - 1)
    (if r < half then q
     else if half < r then q + 1
     else if q % 2 = 0 then q else q + 1) * 2 ^ shift

/-- Floor of the base-2 logarithm, structurally recursive on a fuel bound
(the argument halves each step, so fuel n always suffices). -/
def log2Aux : Nat → Nat → Nat
  | 0, _ => 0
  | fuel + 1, n => if n < 2 then 0 else log2Aux fuel (n / 2) + 1

/-- Floor of the base-2 logarithm of n (0 for n = 0). -/
def floorLog2 (n : Nat) : Nat := log2Aux n n

/-- Round n to the nearest multiple of 2 ^ s, ties to the even multiple:
the significand-truncation step of IEEE-754 round-to-nearest-even. -/
def roundAt (n s : Nat) : Nat :=
  (if n % 2 ^ s < 2 ^ (s - 1) then n / 2 ^ s
   else if 2 ^ (s - 1) < n % 2 ^ s then n / 2 ^ s + 1
   else if n / 2 ^ s % 2 = 0 then n / 2 ^ s else n / 2 ^ s + 1) * 2 ^ s

/-- The IEEE-754 double (binary64) nearest to a natural number: the identity
below 2 ^ 53, and above it the rounding of the low floorLog2 n - 52 bits to
nearest, ties to even. This models every JS double operation whose exact
integer result is n: Number() of a BigInt, a + b, a - b on integer-valued
doubles. Applicable to any magnitude arising here (sums stay far below the
binary64 overflow threshold). -/
def jsDouble (n : Nat) : Nat :=
  if n < 2 ^ 53 then n else roundAt n (floorLog2 n - 52)

/-- RateBucket record as decoded by web-lite (rateLimits.js parseBucket):
capacity, refill period, level and last-update tick. -/
structure RateBucket where
  capacity : Nat
  refillPeriod : Nat
  level : Nat
  lastUpdate : Nat
deriving Repr, DecidableEq

/-- parseBucket (rateLimits.js): four little-endian u64 fields at offsets
0, 8, 16, 24 of the 32-byte bucket slice, each converted by Number(). -/
def parseBucket (data : List Nat) : RateBucket :=
  { capacity := jsNumberOfU64 (readU64LE data 0)
    refillPeriod := jsNumberOfU64 (readU64LE data 8)
    level := jsNumberOfU64 (readU64LE data 16)
    lastUpdate := jsNumberOfU64 (readU64LE data 24) }

/-- Byte layout of a whole RateBucket: the four u64 fields in order. -/
def encodeBucket (c r l u : Nat) : List Nat :=
  encodeU64LE c ++ encodeU64LE r ++ encodeU64LE l ++ encodeU64LE u

/-- KeyState account size in bytes: discriminator 8 + authority_seed 32 +
asset 32 + bump 1 + sell_bucket 32 + borrow_bucket 32 (rateLimits.js). -/
def KEY_STATE_SIZE : Nat := 137

/-- KeyState record as decoded by rateLimits.js parseKeyState. -/
structure KeyState where
  authoritySeed : List Nat
  sellBucket : RateBucket
  borrowBucket : RateBucket
deriving Repr, DecidableEq

/-- parseKeyState (rateLimits.js): length check only, then fixed slices; the
leading 8-byte discriminator is not inspected. -/
def parseKeyState (data : List Nat) : Option KeyState :=
  if data.length < KEY_STATE_SIZE then none
  else
    some { authoritySeed := jsSlice data 8 40
           sellBucket := parseBucket (jsSlice data 73 105)
           borrowBucket := parseBucket (jsSlice data 105 137) }

/-- bucketAvailableNow (rateLimits.js): capacity 0 reports 0; otherwise
elapsed is clamped at 0, a full refill applies once elapsed reaches the
refill period, else a proportional refill, capped at capacity. Each double
operation rounds: Math.max(0, currentSlot - lastUpdate) is the rounding of
the exact integer difference clamped at 0 (rounding preserves sign, so the
Nat truncated difference under jsDouble models it exactly); the BigInt
product and quotient are exact but Number() rounds the quotient; and
level + refill is double addition, the rounding of the exact sum. The
comparisons and Math.min on doubles are exact. -/
def bucketAvailableNow (b : RateBucket) (currentSlot : Nat) : Nat :=
  if b.capacity = 0 then 0
  else
    let elapsed := jsDouble (currentSlot - b.lastUpdate)
    let refill :=
      if b.refillPeriod ≤ elapsed then b.capacity
      else jsDouble (b.capacity * elapsed / b.refillPeriod)
    min b.capacity (jsDouble (b.level + refill))

/-- Modelled from the spec (section 4.3) for the refinement comparison of C3:
elapsed = max(0, nowTick - lastUpdate); capacity 0 reports 0; full refill
when elapsed is at least refillPeriod; otherwise
min(capacity, level + floor(capacity * elapsed / refillPeriod)). -/
def specBucketAvailable (b : RateBucket) (nowTick : Nat) : Int :=
  let elapsed : Int := max 0 ((nowTick : Int) - (b.lastUpdate : Int))
  if b.capacity = 0 then 0
  else if (b.refillPeriod : Int) ≤ elapsed then (b.capacity : Int)
  else min (b.capacity : Int)
    ((b.level : Int) + (b.capacity : Int) * elapsed / (b.refillPeriod : Int))

/-- Permission bit for managing keys (utils.js PERM_MANAGE_KEYS = 0x20). -/
def PERM_MANAGE_KEYS : Nat := 32

/-- Administrator preset permission mask (utils.js PRESET_ADMIN = 0x3F). -/
def PRESET_ADMIN : Nat := 63

/-- Loop of the inline popcount of discoverPosition, structurally recursive
on a fuel bound (the loop halves n each step, so fuel n is always enough;
popcountAux is never called with insufficient fuel by popcount below). -/
def popcountAux : Nat → Nat → Nat
  | 0, _ => 0
  | fuel + 1, n => if n = 0 then 0 else n % 2 + popcountAux fuel (n / 2)

/-- popcount as written inline in discoverPosition: repeatedly add the low
bit (n & 1) and shift right (n >>= 1) until n is zero. -/
def popcount (n : Nat) : Nat := popcountAux n n

/-- Result of parseMplCoreAsset (discovery.js): owner plus optional update
authority. -/
structure MplAsset where
  owner : List Nat
  updateAuthority : Option (List Nat)
deriving Repr, DecidableEq

/-- parseMplCoreAsset (discovery.js): requires at least 66 bytes, a leading
Key byte equal to 1 (AssetV1), owner in bytes 1..33, then an update-authority
tag byte selecting none (0) or a 32-byte address (1 or 2); any other tag
fails the parse. -/
def parseMplCoreAsset (data : List Nat) : Option MplAsset :=
  if data.length < 66 then none
  else if data.getD 0 0 ≠ 1 then none
  else
    let owner := jsSlice data 1 33
    let uaTag := data.getD 33 0
    if (uaTag = 1 ∨ uaTag = 2) ∧ 66 ≤ data.length then
      some { owner := owner, updateAuthority := some (jsSlice data 34 66) }
    else if uaTag ≠ 0 then none
    else some { owner := owner, updateAuthority := none }

/-- Outcome of one attribute scan: a value found, no match before the loop
bound, or an out-of-bounds memory access (which the theorems below prove
unreachable). -/
inductive AttrScan where
  | found (v : List Nat)
  | notFound
  | oob
deriving Repr, DecidableEq

/-- Loop body of readAttributeFromAssetData (discovery.js), scanning from
index i: the loop runs while i is below length - needle.length - 8 (a JS
number, possibly negative, hence the Int comparison); it breaks once
i + 4 + needle.length + 4 exceeds the length; at each index it reads a u32
key length, requires it to equal the needle length, compares the key bytes,
then reads a u32 value length, skipping values that are empty, longer than
200, or run past the buffer. Every byte access is checked so that bounds
safety is a provable property. -/
def attrScanAux (data needle : List Nat) : Nat → Nat → AttrScan
  | fuel, i =>
    if (data.length : Int) - needle.length - 8 ≤ (i : Int) then .notFound
    else if data.length < i + 4 + needle.length + 4 then .notFound
    else
      match fuel with
      | 0 => .oob
      | fuel + 1 =>
        match readU32At data i with
        | none => .oob
        | some keyLen =>
          if keyLen ≠ needle.length then attrScanAux data needle fuel (i + 1)
          else
            match bytesEqAt data (i + 4) needle with
            | none => .oob
            | some false => attrScanAux data needle fuel (i + 1)
            | some true =>
              if data.length < i + 4 + needle.length + 4 then
                attrScanAux data needle fuel (i + 1)
              else
                match readU32At data (i + 4 + needle.length) with
                | none => .oob
                | some valueLen =>
                  if valueLen = 0 ∨ 200 < valueLen ∨
                      data.length < i + 4 + needle.length + 4 + valueLen then
                    attrScanAux data needle fuel (i + 1)
                  else
                    match sliceAt data (i + 4 + needle.length + 4) valueLen with
                    | none => .oob
                    | some v => .found v

/-- readAttributeFromAssetData (discovery.js): scan for a named attribute
starting at index 66; needle is the byte encoding of the attribute name.
The fuel data.length strictly bounds the number of loop iterations (the
loop index starts at 66 and stays below data.length); a fuel shortfall
would surface as .oob, which the scan safety theorem rules out. -/
def readAttributeFromAssetData (data needle : List Nat) : Option (List Nat) :=
  match attrScanAux data needle data.length 66 with
  | .found v => some v
  | _ => none

/-- Byte encoding of the string permissions. -/
def permissionsNeedle : List Nat := [112, 101, 114, 109, 105, 115, 115, 105, 111, 110, 115]

/-- Byte encoding of the string position. -/
def positionNeedle : List Nat := [112, 111, 115, 105, 116, 105, 111, 110]

/-- ASCII decimal digit test. -/
def isDigit (b : Nat) : Bool := decide (48 ≤ b) && decide (b ≤ 57)

/-- JS whitespace bytes skipped by parseInt. -/
def isJsSpace (b : Nat) : Bool :=
  decide (b = 32) || decide (b = 9) || decide (b = 10) || decide (b = 11) ||
    decide (b = 12) || decide (b = 13)

/-- Value of a list of ASCII digits. -/
def digitsVal (ds : List Nat) : Nat :=
  ds.foldl (fun acc d => acc * 10 + (d - 48)) 0

/-- Leading digit run of a byte string, or none when it starts with no digit. -/
def parseIntDigits (s : List Nat) : Option Nat :=
  let ds := s.takeWhile isDigit
  if ds = [] then none else some (digitsVal ds)

/-- Model of JS parseInt(s, 10): skip whitespace, optional sign, then the
leading run of decimal digits; NaN (none) when no digit follows. -/
def jsParseIntDec (s : List Nat) : Option Int :=
  match s.dropWhile isJsSpace with
  | 43 :: rest => (parseIntDigits rest).map (fun n => (n : Int))
  | 45 :: rest => (parseIntDigits rest).map (fun n => -(n : Int))
  | rest => (parseIntDigits rest).map (fun n => (n : Int))

/-- readPermissionsFromAssetData (discovery.js): the permissions attribute
parsed as a decimal integer, kept only when in 0..255. -/
def readPermissionsFromAssetData (data : List Nat) : Option Nat :=
  match readAttributeFromAssetData data permissionsNeedle with
  | none => none
  | some v =>
    match jsParseIntDec v with
    | none => none
    | some n => if 0 ≤ n ∧ n ≤ 255 then some n.toNat else none

/-- readPositionBindingFromAssetData (discovery.js): the position attribute. -/
def readPositionBindingFromAssetData (data : List Nat) : Option (List Nat) :=
  readAttributeFromAssetData data positionNeedle

/-- The best candidate tracked by discoverPosition: its permissions and its
asset pubkey. -/
structure BestSel where
  permissions : Nat
  assetPubkey : List Nat
deriving Repr, DecidableEq

/-- One entry of the allFound list built by discoverPosition. -/
structure Candidate where
  posPda : List Nat
  permissions : Nat
  assetPubkey : List Nat
  isAdmin : Bool
  adminAsset : List Nat
deriving Repr, DecidableEq

/-- Mutable locals of the discovery loops: allFound, bestPos, best. -/
structure ScanSt where
  allFound : List Candidate
  bestPos : Option (List Nat)
  best : Option BestSel
deriving Repr, DecidableEq

/-- Initial discovery state: bestPos = null, best = null, allFound = []. -/
def emptyScanSt : ScanSt := { allFound := [], bestPos := none, best := none }

/-- The isBetter test of discoverPosition: a missing best is always beaten;
otherwise strictly larger popcount wins, or, on equal popcount, having the
manage bit while the incumbent lacks it. -/
def isBetterCand (best : Option BestSel) (permissions : Nat) : Bool :=
  match best with
  | none => true
  | some b =>
    decide (popcount b.permissions < popcount permissions) ||
      (decide (popcount permissions = popcount b.permissions) &&
        decide (permissions &&& PERM_MANAGE_KEYS ≠ 0) &&
        decide (b.permissions &&& PERM_MANAGE_KEYS = 0))

/-- The conditional update of bestPos and best after a candidate is pushed. -/
def updateBest (st : ScanSt) (posPda : List Nat) (permissions : Nat)
    (asset : List Nat) : ScanSt :=
  if isBetterCand st.best permissions then
    { st with bestPos := some posPda
              best := some { permissions := permissions, assetPubkey := asset } }
  else st

/-- One iteration of the administrator loop of discoverPosition: entry pairs
a (posPda, adminAsset) record with the fetched asset bytes; a missing
account, failed parse or foreign owner is skipped; otherwise the candidate
is pushed with the permissions attribute defaulted to PRESET_ADMIN. -/
def adminStep (wallet : List Nat) (st : ScanSt)
    (entry : (List Nat × List Nat) × Option (List Nat)) : ScanSt :=
  match entry.2 with
  | none => st
  | some data =>
    match parseMplCoreAsset data with
    | none => st
    | some parsed =>
      if parsed.owner ≠ wallet then st
      else
        let permissions := (readPermissionsFromAssetData data).getD PRESET_ADMIN
        let posPda := entry.1.1
        let adminAsset := entry.1.2
        let cand : Candidate :=
          { posPda := posPda, permissions := permissions, assetPubkey := adminAsset
            isAdmin := true, adminAsset := adminAsset }
        updateBest { st with allFound := st.allFound ++ [cand] } posPda permissions adminAsset

/-- Lookup in the adminAssetToPos map; JS Map.set overwrites, so the most
recently inserted binding for a key wins. -/
def mapGet (m : List (List Nat × List Nat)) (k : List Nat) : Option (List Nat) :=
  (m.reverse.find? (fun e => decide (e.1 = k))).map (fun e => e.2)

/-- One iteration of the delegated-key loop of discoverPosition: entry pairs
a (keyStatePda, asset) record with the fetched asset bytes; skips on missing
account, failed parse, foreign owner, missing permissions attribute, missing
or empty position attribute, or a binding not in the lookup table; otherwise
pushes the candidate, with adminAsset the parsed binding. -/
def delegatedStep (wallet : List Nat) (adminAssetToPos : List (List Nat × List Nat))
    (pkOfStr : List Nat → List Nat) (st : ScanSt)
    (entry : (List Nat × List Nat) × Option (List Nat)) : ScanSt :=
  match entry.2 with
  | none => st
  | some data =>
    match parseMplCoreAsset data with
    | none => st
    | some parsed =>
      if parsed.owner ≠ wallet then st
      else
        match readPermissionsFromAssetData data with
        | none => st
        | some permissions =>
          match readPositionBindingFromAssetData data with
          | none => st
          | some binding =>
            if binding = [] then st
            else
              match mapGet adminAssetToPos binding with
              | none => st
              | some posPda =>
                let cand : Candidate :=
                  { posPda := posPda, permissions := permissions
                    assetPubkey := entry.1.2, isAdmin := false
                    adminAsset := pkOfStr binding }
                updateBest { st with allFound := st.allFound ++ [cand] }
                  posPda permissions entry.1.2

/-- Step 1 of discoverPosition as a fold over the positions paired with
their fetched administrator assets, starting from the empty state. -/
def adminScan (wallet : List Nat) (positions : List (List Nat × List Nat))
    (fetch : List Nat → Option (List Nat)) : ScanSt :=
  (positions.map (fun p => (p, fetch p.2))).foldl (adminStep wallet) emptyScanSt

/-- Step 2 of discoverPosition as a fold over the key states paired with
their fetched delegated assets, continuing from the state of step 1. -/
def delegatedScan (wallet : List Nat) (adminAssetToPos : List (List Nat × List Nat))
    (pkOfStr : List Nat → List Nat) (keyStates : List (List Nat × List Nat))
    (fetch : List Nat → Option (List Nat)) (st : ScanSt) : ScanSt :=
  (keyStates.map (fun ks => (ks, fetch ks.2))).foldl
    (delegatedStep wallet adminAssetToPos pkOfStr) st

/-- The candidate-collection phase of discoverPosition (discovery.js):
step 1 walks all positions with their fetched administrator assets; step 2
walks the key states with their fetched delegated assets, but only when
step 1 set no bestPos and the key-state list is nonempty. pkStr models
PublicKey.toString (used to key the lookup map) and pkOfStr models parsing a
pubkey from its string form. fetch models getMultipleAccountsInfo. -/
def discoverPositionCandidates (pkStr pkOfStr : List Nat → List Nat)
    (wallet : List Nat) (positions keyStates : List (List Nat × List Nat))
    (fetch : List Nat → Option (List Nat)) : ScanSt :=
  let adminAssetToPos := positions.map (fun p => (pkStr p.2, p.1))
  let st1 := adminScan wallet positions fetch
  if st1.bestPos = none ∧ keyStates ≠ [] then
    delegatedScan wallet adminAssetToPos pkOfStr keyStates fetch st1
  else st1

/-- parseBorshString (discovery.js): a 4-byte little-endian length prefix
followed by that many bytes; a prefix that cannot be read or that runs past
the end yields the empty value with 4 bytes consumed. -/
def parseBorshString (data : List Nat) (offset : Nat) : List Nat × Nat :=
  if data.length < offset + 4 then ([], 4)
  else
    let len := readU32LE data offset
    if data.length < offset + 4 + len then ([], 4)
    else (jsSlice data (offset + 4) (offset + 4 + len), 4 + len)

/-- PromoConfig account size in bytes (discovery.js). -/
def PROMO_CONFIG_SIZE : Nat := 327

/-- Decoded PromoConfig record (discovery.js discoverPromos). The bump field
mirrors the JS indexed read, which yields undefined when past the end. -/
structure PromoRecord where
  authoritySeed : List Nat
  permissions : Nat
  borrowCapacity : Nat
  borrowRefillPeriod : Nat
  sellCapacity : Nat
  sellRefillPeriod : Nat
  minDepositLamports : Nat
  claimsCount : Nat
  maxClaims : Nat
  active : Bool
  nameSuffix : List Nat
  imageUri : List Nat
  marketName : List Nat
  bump : Option Nat
deriving Repr, DecidableEq

/-- Per-account body of the discoverPromos loop: buffers shorter than
PROMO_CONFIG_SIZE are skipped, everything else is decoded at fixed offsets
(discriminator 8, seed 32, permissions 1, five u64 fields, two u32 fields,
active 1, then three length-prefixed strings and the bump byte). -/
def parsePromo (data : List Nat) : Option PromoRecord :=
  if data.length < PROMO_CONFIG_SIZE then none
  else
    let ns := parseBorshString data 90
    let iu := parseBorshString data (90 + ns.2)
    let mn := parseBorshString data (90 + ns.2 + iu.2)
    some { authoritySeed := jsSlice data 8 40
           permissions := data.getD 40 0
           borrowCapacity := jsNumberOfU64 (readU64LE data 41)
           borrowRefillPeriod := jsNumberOfU64 (readU64LE data 49)
           sellCapacity := jsNumberOfU64 (readU64LE data 57)
           sellRefillPeriod := jsNumberOfU64 (readU64LE data 65)
           minDepositLamports := jsNumberOfU64 (readU64LE data 73)
           claimsCount := readU32LE data 81
           maxClaims := readU32LE data 85
           active := data.getD 89 0 ≠ 0
           nameSuffix := ns.1
           imageUri := iu.1
           marketName := mn.1
           bump := data[90 + ns.2 + iu.2 + mn.2]? }

/-- The promo list produced by discoverPromos from the fetched buffers. -/
def promosFromAccounts (accounts : List (List Nat)) : List PromoRecord :=
  accounts.filterMap parsePromo

/-- Concrete wallet pubkey used by the discovery counterexample. -/
def walletCex : List Nat := List.replicate 32 7

/-- Concrete administrator asset pubkey for the discovery counterexample. -/
def adminAssetCex : List Nat := List.replicate 32 3

/-- Concrete position PDA for the discovery counterexample. -/
def posPdaCex : List Nat := List.replicate 32 5

/-- Concrete delegated asset pubkey for the discovery counterexample. -/
def delegAssetCex : List Nat := List.replicate 32 9

/-- Concrete KeyState PDA for the discovery counterexample. -/
def keyStatePdaCex : List Nat := List.replicate 32 11

/-- A 66-byte MPL-Core asset owned by walletCex with no attributes: Key byte
1, owner, update-authority tag 0, zero padding. -/
def adminAssetBytesCex : List Nat := 1 :: walletCex ++ 0 :: List.replicate 32 0

/-- A 134-byte MPL-Core asset owned by walletCex whose attribute region
carries permissions = 9 (decimal string, byte 57) and position bound to
adminAssetCex (value of 32 bytes, the identity encoding of the pubkey). -/
def delegAssetBytesCex : List Nat :=
  1 :: walletCex ++ 0 :: List.replicate 32 0 ++
    [11, 0, 0, 0] ++ permissionsNeedle ++ [1, 0, 0, 0] ++ [57] ++
    [8, 0, 0, 0] ++ positionNeedle ++ [32, 0, 0, 0] ++ adminAssetCex

/-- Fetch collaborator for the discovery counterexample: resolves the two
asset pubkeys above and nothing else. -/
def fetchCex : List Nat → Option (List Nat) := fun pk =>
  if pk = adminAssetCex then some adminAssetBytesCex
  else if pk = delegAssetCex then some delegAssetBytesCex
  else none

/-- Fetch collaborator resolving only the delegated asset, so that the
administrator path finds nothing. -/
def fetchDelegOnlyCex : List Nat → Option (List Nat) := fun pk =>
  if pk = delegAssetCex then some delegAssetBytesCex else none

theorem log2Aux_bracket :
    ∀ fuel n, 1 ≤ n → n ≤ fuel → 2 ^ log2Aux fuel n ≤ n ∧ n < 2 ^ (log2Aux fuel n + 1) := by
  intro fuel
  induction fuel with
  | zero => intro n h1 h2; exact absurd h1 (by omega)
  | succ fuel ih =>
    intro n h1 h2
    by_cases h2n : n < 2
    · simp only [log2Aux]
      rw [if_pos h2n]
      constructor
      · simpa using h1
      · simpa using h2n
    · simp only [log2Aux]
      rw [if_neg h2n]
      obtain ⟨ihl, ihr⟩ := ih (n / 2) (by omega) (by omega)
      constructor
      · rw [pow_succ]
        omega
      · rw [pow_succ]
        omega

theorem floorLog2_bracket (n : Nat) (h : 1 ≤ n) :
    2 ^ floorLog2 n ≤ n ∧ n < 2 ^ (floorLog2 n + 1) :=
  log2Aux_bracket n n h (le_refl n)

theorem roundAt_lower (n s : Nat) : n / 2 ^ s * 2 ^ s ≤ roundAt n s := by
  unfold roundAt
  split_ifs <;> exact Nat.mul_le_mul_right _ (by omega)

theorem roundAt_upper (n s : Nat) : roundAt n s ≤ (n / 2 ^ s + 1) * 2 ^ s := by
  unfold roundAt
  split_ifs <;> exact Nat.mul_le_mul_right _ (by omega)

theorem roundAt_mono (s a b : Nat) (h : a ≤ b) : roundAt a s ≤ roundAt b s := by
  have hq : a / 2 ^ s ≤ b / 2 ^ s := Nat.div_le_div_right h
  rcases Nat.lt_or_ge (a / 2 ^ s) (b / 2 ^ s) with hlt | hge
  · calc roundAt a s ≤ (a / 2 ^ s + 1) * 2 ^ s := roundAt_upper a s
      _ ≤ b / 2 ^ s * 2 ^ s := Nat.mul_le_mul_right _ (by omega)
      _ ≤ roundAt b s := roundAt_lower b s
  · have hqq : a / 2 ^ s = b / 2 ^ s := by omega
    have hrm : a % 2 ^ s ≤ b % 2 ^ s := by
      have ha := Nat.div_add_mod a (2 ^ s)
      have hb := Nat.div_add_mod b (2 ^ s)
      rw [hqq] at ha
      omega
    by_cases hra : a % 2 ^ s < 2 ^ (s - 1)
    · have hva : roundAt a s = a / 2 ^ s * 2 ^ s := by
        unfold roundAt
        rw [if_pos hra]
      rw [hva, hqq]
      exact roundAt_lower b s
    · by_cases hrb : 2 ^ (s - 1) < b % 2 ^ s
      · have hvb : roundAt b s = (b / 2 ^ s + 1) * 2 ^ s := by
          unfold roundAt
          rw [if_neg (by omega), if_pos hrb]
        rw [hvb, ← hqq]
        exact roundAt_upper a s
      · have hra2 : a % 2 ^ s = 2 ^ (s - 1) := by omega
        have hrb2 : b % 2 ^ s = 2 ^ (s - 1) := by omega
        unfold roundAt
        rw [hra2, hrb2, hqq]

theorem jsDouble_small (n : Nat) (h : n < 2 ^ 53) : jsDouble n = n := by
  unfold jsDouble
  rw [if_pos h]

theorem floorLog2_ge_53 (n : Nat) (h : 2 ^ 53 ≤ n) : 53 ≤ floorLog2 n := by
  have hb := (floorLog2_bracket n (by omega)).2
  by_contra hlt
  push_neg at hlt
  have : 2 ^ (floorLog2 n + 1) ≤ 2 ^ 53 := Nat.pow_le_pow_right (by omega) (by omega)
  omega

theorem jsDouble_big (n : Nat) (h : 2 ^ 53 ≤ n) : 2 ^ 53 ≤ jsDouble n := by
  unfold jsDouble
  rw [if_neg (by omega)]
  have hf := floorLog2_ge_53 n h
  have hb := (floorLog2_bracket n (by omega)).1
  have hsplit : 52 + (floorLog2 n - 52) = floorLog2 n := by omega
  have hqle : 2 ^ 52 ≤ n / 2 ^ (floorLog2 n - 52) := by
    rw [Nat.le_div_iff_mul_le (pow_pos (by omega) _)]
    rw [← pow_add, hsplit]
    exact hb
  calc 2 ^ 53 ≤ 2 ^ floorLog2 n := Nat.pow_le_pow_right (by omega) (by omega)
    _ = 2 ^ 52 * 2 ^ (floorLog2 n - 52) := by rw [← pow_add, hsplit]
    _ ≤ n / 2 ^ (floorLog2 n - 52) * 2 ^ (floorLog2 n - 52) :=
        Nat.mul_le_mul_right _ hqle
    _ ≤ roundAt n (floorLog2 n - 52) := roundAt_lower n _

theorem jsDouble_mono (a b : Nat) (h : a ≤ b) : jsDouble a ≤ jsDouble b := by
  by_cases hb53 : b < 2 ^ 53
  · rw [jsDouble_small a (by omega), jsDouble_small b hb53]
    exact h
  · by_cases ha53 : a < 2 ^ 53
    · rw [jsDouble_small a ha53]
      have := jsDouble_big b (by omega)
      omega
    · obtain ⟨hfa1, hfa2⟩ := floorLog2_bracket a (by omega)
      obtain ⟨hfb1, hfb2⟩ := floorLog2_bracket b (by omega)
      have hfa53 := floorLog2_ge_53 a (by omega)
      have hfb53 := floorLog2_ge_53 b (by omega)
      unfold jsDouble
      rw [if_neg (by omega), if_neg (by omega)]
      have hfab : floorLog2 a ≤ floorLog2 b := by
        have hlt : 2 ^ floorLog2 a < 2 ^ (floorLog2 b + 1) := by omega
        have := (Nat.pow_lt_pow_iff_right (by omega : 1 < 2)).mp hlt
        omega
      rcases Nat.eq_or_lt_of_le hfab with heq | hlt
      · rw [heq]
        exact roundAt_mono (floorLog2 b - 52) a b h
      · have hs_a : 53 + (floorLog2 a - 52) = floorLog2 a + 1 := by omega
        have hs_b : 52 + (floorLog2 b - 52) = floorLog2 b := by omega
        have hqa : a / 2 ^ (floorLog2 a - 52) < 2 ^ 53 := by
          rw [Nat.div_lt_iff_lt_mul (pow_pos (by omega) _)]
          calc a < 2 ^ (floorLog2 a + 1) := hfa2
            _ = 2 ^ 53 * 2 ^ (floorLog2 a - 52) := by rw [← pow_add, hs_a]
        have hqb : 2 ^ 52 ≤ b / 2 ^ (floorLog2 b - 52) := by
          rw [Nat.le_div_iff_mul_le (pow_pos (by omega) _)]
          calc 2 ^ 52 * 2 ^ (floorLog2 b - 52) = 2 ^ floorLog2 b := by
                rw [← pow_add, hs_b]
            _ ≤ b := hfb1
        calc roundAt a (floorLog2 a - 52)
            ≤ (a / 2 ^ (floorLog2 a - 52) + 1) * 2 ^ (floorLog2 a - 52) :=
              roundAt_upper a _
          _ ≤ 2 ^ 53 * 2 ^ (floorLog2 a - 52) := Nat.mul_le_mul_right _ (by omega)
          _ = 2 ^ (floorLog2 a + 1) := by rw [← pow_add, hs_a]
          _ ≤ 2 ^ floorLog2 b := Nat.pow_le_pow_right (by omega) (by omega)
          _ = 2 ^ 52 * 2 ^ (floorLog2 b - 52) := by rw [← pow_add, hs_b]
          _ ≤ b / 2 ^ (floorLog2 b - 52) * 2 ^ (floorLog2 b - 52) :=
              Nat.mul_le_mul_right _ hqb
          _ ≤ roundAt b (floorLog2 b - 52) := roundAt_lower b _

theorem avail_zero (b : RateBucket) (t : Nat) (hc : b.capacity = 0) :
    bucketAvailableNow b t = 0 := by
  unfold bucketAvailableNow
  rw [if_pos hc]

theorem avail_pos (b : RateBucket) (t : Nat) (hc : ¬ b.capacity = 0) :
    bucketAvailableNow b t =
      min b.capacity (jsDouble (b.level +
        (if b.refillPeriod ≤ jsDouble (t - b.lastUpdate) then b.capacity
         else jsDouble (b.capacity * jsDouble (t - b.lastUpdate) / b.refillPeriod)))) := by
  unfold bucketAvailableNow
  rw [if_neg hc]

theorem spec_avail_zero (b : RateBucket) (t : Nat) (hc : b.capacity = 0) :
    specBucketAvailable b t = 0 := by
  unfold specBucketAvailable
  rw [if_pos hc]

theorem spec_avail_eval (b : RateBucket) (t : Nat) (hc : ¬ b.capacity = 0) :
    specBucketAvailable b t =
      if (b.refillPeriod : Int) ≤ max 0 ((t : Int) - (b.lastUpdate : Int))
      then (b.capacity : Int)
      else min (b.capacity : Int) ((b.level : Int) +
        (b.capacity : Int) * max 0 ((t : Int) - (b.lastUpdate : Int)) /
          (b.refillPeriod : Int)) := by
  simp only [specBucketAvailable]
  rw [if_neg hc]

/-- C3 counterexample: at capacity 2 ^ 55, refillPeriod 3, level 0,
lastUpdate 0 and tick 2, the evaluator rounds the BigInt quotient
24019198012642645 to the nearest double 24019198012642644 via Number(),
while the spec algorithm yields 24019198012642645 exactly, so the evaluator
does not return the spec value for every bucket and tick. -/
theorem bucket_eval_rounding_cex :
    bucketAvailableNow ⟨36028797018963968, 3, 0, 0⟩ 2 = 24019198012642644 ∧
      specBucketAvailable ⟨36028797018963968, 3, 0, 0⟩ 2 = 24019198012642645 ∧
      (24019198012642644 : Nat) ≠ 24019198012642645 := by decide

/-- C3 amended: the evaluator computes the spec algorithm with the elapsed
difference, the proportional-refill quotient and the level + refill sum each
rounded to the nearest IEEE-754 double; it returns exactly the spec value
whenever capacity, level and the current tick are below 2 ^ 53, the range in
which all intermediate doubles are exact (the counterexample shows exactness
fails beyond it). -/
theorem bucketAvailableNow_matches_spec_small (b : RateBucket) (t : Nat)
    (hc53 : b.capacity < 2 ^ 53) (hl53 : b.level < 2 ^ 53) (ht53 : t < 2 ^ 53) :
    (bucketAvailableNow b t : Int) = specBucketAvailable b t := by
  by_cases hc : b.capacity = 0
  · rw [avail_zero b t hc, spec_avail_zero b t hc]
    rfl
  · have he : jsDouble (t - b.lastUpdate) = t - b.lastUpdate :=
      jsDouble_small _ (by omega)
    have heInt : max 0 ((t : Int) - (b.lastUpdate : Int)) =
        ((t - b.lastUpdate : Nat) : Int) := by omega
    rw [avail_pos b t hc, he, spec_avail_eval b t hc]
    by_cases hr : b.refillPeriod ≤ t - b.lastUpdate
    · rw [if_pos hr, if_pos (by rw [heInt]; exact_mod_cast hr)]
      by_cases hsum : b.level + b.capacity < 2 ^ 53
      · rw [jsDouble_small _ hsum, min_eq_left (by omega : b.capacity ≤ b.level + b.capacity)]
      · have h53 := jsDouble_big (b.level + b.capacity) (by omega)
        rw [min_eq_left (by omega : b.capacity ≤ jsDouble (b.level + b.capacity))]
    · rw [if_neg hr, if_neg (by rw [heInt]; exact_mod_cast hr)]
      have hr0 : 0 < b.refillPeriod := by omega
      have hqc : b.capacity * (t - b.lastUpdate) / b.refillPeriod ≤ b.capacity := by
        calc b.capacity * (t - b.lastUpdate) / b.refillPeriod
            ≤ b.capacity * b.refillPeriod / b.refillPeriod :=
              Nat.div_le_div_right (Nat.mul_le_mul_left _ (by omega))
          _ = b.capacity := Nat.mul_div_cancel _ hr0
      rw [jsDouble_small (b.capacity * (t - b.lastUpdate) / b.refillPeriod) (by omega)]
      have hspec_q : ((b.capacity * (t - b.lastUpdate) / b.refillPeriod : Nat) : Int) =
          (b.capacity : Int) * max 0 ((t : Int) - (b.lastUpdate : Int)) /
            (b.refillPeriod : Int) := by
        rw [heInt, Int.ofNat_div]
        push_cast
        rfl
      by_cases hsum : b.level + b.capacity * (t - b.lastUpdate) / b.refillPeriod < 2 ^ 53
      · rw [jsDouble_small _ hsum, Nat.cast_min, Nat.cast_add, hspec_q]
      · have h53 := jsDouble_big _ (Nat.le_of_not_lt hsum)
        rw [min_eq_left (by omega : b.capacity ≤
          jsDouble (b.level + b.capacity * (t - b.lastUpdate) / b.refillPeriod))]
        rw [← hspec_q, ← Nat.cast_add, ← Nat.cast_min,
          min_eq_left (by omega : b.capacity ≤
            b.level + b.capacity * (t - b.lastUpdate) / b.refillPeriod)]

theorem bucketAvailableNow_matches_spec_small_witness :
    (bucketAvailableNow ⟨10, 5, 3, 100⟩ 7 : Int) = specBucketAvailable ⟨10, 5, 3, 100⟩ 7 :=
  bucketAvailableNow_matches_spec_small _ 7 (by decide) (by decide) (by decide)

/-- C7 counterexample: a bucket with capacity 0 but level 5 evaluates to 0
at its own lastUpdate tick, not to its level, so the unrestricted identity
available(bucket, lastUpdate) = level is false. -/
theorem bucket_level_identity_cex :
    bucketAvailableNow { capacity := 0, refillPeriod := 1, level := 5, lastUpdate := 10 } 10 ≠
      5 := by decide

/-- C7 amended: availability is monotonically non-decreasing in the tick for
every bucket, through every IEEE-754 rounding the evaluator performs; the
identity available(bucket, lastUpdate) = level holds under the spec-implicit
well-formedness conditions capacity greater than 0, refillPeriod greater
than 0 and level at most capacity, with level a representable double (true
of every level produced by the decoder). -/
theorem bucket_mono_and_level_at_lastUpdate (b : RateBucket) :
    (∀ t1 t2 : Nat, t1 ≤ t2 → bucketAvailableNow b t1 ≤ bucketAvailableNow b t2) ∧
      (b.capacity ≠ 0 → b.refillPeriod ≠ 0 → b.level ≤ b.capacity →
        jsDouble b.level = b.level → bucketAvailableNow b b.lastUpdate = b.level) := by
  constructor
  · intro t1 t2 h
    by_cases hc : b.capacity = 0
    · rw [avail_zero _ _ hc, avail_zero _ _ hc]
    · rw [avail_pos _ _ hc, avail_pos _ _ hc]
      have he : jsDouble (t1 - b.lastUpdate) ≤ jsDouble (t2 - b.lastUpdate) :=
        jsDouble_mono _ _ (by omega)
      by_cases hr1 : b.refillPeriod ≤ jsDouble (t1 - b.lastUpdate)
      · rw [if_pos hr1, if_pos (by omega)]
      · rw [if_neg hr1]
        by_cases hr2 : b.refillPeriod ≤ jsDouble (t2 - b.lastUpdate)
        · rw [if_pos hr2]
          have hr0 : 0 < b.refillPeriod := by omega
          have hq1c : b.capacity * jsDouble (t1 - b.lastUpdate) / b.refillPeriod ≤
              b.capacity := by
            calc b.capacity * jsDouble (t1 - b.lastUpdate) / b.refillPeriod
                ≤ b.capacity * b.refillPeriod / b.refillPeriod :=
                  Nat.div_le_div_right (Nat.mul_le_mul_left _ (by omega))
              _ = b.capacity := Nat.mul_div_cancel _ hr0
          by_cases hcc : jsDouble b.capacity ≤ b.capacity
          · have h1 : jsDouble (b.capacity * jsDouble (t1 - b.lastUpdate) /
                b.refillPeriod) ≤ b.capacity :=
              le_trans (jsDouble_mono _ _ hq1c) hcc
            exact min_le_min (le_refl _) (jsDouble_mono _ _ (by omega))
          · push_neg at hcc
            have h2 : b.capacity ≤ jsDouble (b.level + b.capacity) := by
              have := jsDouble_mono b.capacity (b.level + b.capacity) (by omega)
              omega
            rw [min_eq_left h2]
            exact min_le_left _ _
        · rw [if_neg hr2]
          have hq : b.capacity * jsDouble (t1 - b.lastUpdate) / b.refillPeriod ≤
              b.capacity * jsDouble (t2 - b.lastUpdate) / b.refillPeriod :=
            Nat.div_le_div_right (Nat.mul_le_mul_left _ he)
          have hrf := jsDouble_mono _ _ hq
          exact min_le_min (le_refl _) (jsDouble_mono _ _ (by omega))
  · intro hc hr hl hrep
    rw [avail_pos _ _ hc]
    have he : jsDouble (b.lastUpdate - b.lastUpdate) = 0 := by
      rw [Nat.sub_self]
      exact jsDouble_small 0 (by omega)
    rw [he, if_neg (by omega), Nat.mul_zero, Nat.zero_div,
      jsDouble_small 0 (by omega), Nat.add_zero, hrep]
    exact min_eq_right hl

theorem bucket_mono_and_level_witness :
    bucketAvailableNow { capacity := 10, refillPeriod := 5, level := 3, lastUpdate := 100 } 0 ≤
        bucketAvailableNow { capacity := 10, refillPeriod := 5, level := 3, lastUpdate := 100 } 7 ∧
      bucketAvailableNow { capacity := 10, refillPeriod := 5, level := 3, lastUpdate := 100 } 100 =
        3 :=
  ⟨(bucket_mono_and_level_at_lastUpdate _).1 0 7 (by decide),
   (bucket_mono_and_level_at_lastUpdate _).2 (by decide) (by decide) (by decide) (by decide)⟩

/-- C10: when capacity is positive (and a representable double, as every
capacity produced by the decoder is) and refillPeriod is 0, elapsed is
always at least refillPeriod, so the full-refill branch is taken and the
result is exactly capacity; the division by refillPeriod is never reached. -/
theorem bucketAvailableNow_zero_period (b : RateBucket) (slot : Nat)
    (hc : b.capacity ≠ 0) (hr : b.refillPeriod = 0)
    (hrep : jsDouble b.capacity = b.capacity) :
    bucketAvailableNow b slot = b.capacity := by
  rw [avail_pos _ _ hc, hr, if_pos (Nat.zero_le _)]
  have h2 : b.capacity ≤ jsDouble (b.level + b.capacity) := by
    have := jsDouble_mono b.capacity (b.level + b.capacity) (by omega)
    omega
  exact min_eq_left h2

theorem bucketAvailableNow_zero_period_witness :
    bucketAvailableNow { capacity := 5, refillPeriod := 0, level := 3, lastUpdate := 10 } 0 =
      5 :=
  bucketAvailableNow_zero_period _ 0 (by decide) (by decide) (by decide)

theorem jsNumberOfU64_small (n : Nat) (h : n < 2 ^ 53) : jsNumberOfU64 n = n := by
  unfold jsNumberOfU64
  rw [if_pos h]

/-- C4 counterexample: the byte layout of the u64 value 9007199254740993
decodes through parseBucket to 9007199254740992, because every u64 field is
converted with Number() and loses precision beyond 2 ^ 53; decoding does not
reproduce the original value at the claimed boundary input. -/
theorem u64_precision_cex :
    (parseBucket (encodeBucket 9007199254740993 0 0 0)).capacity = 9007199254740992 ∧
      (9007199254740992 : Nat) ≠ 9007199254740993 := by decide

/-- C4 amended: 64-bit fields are decoded through the IEEE-754 double
conversion of Number(), so decoding reproduces the original value exactly
only below the 53-bit boundary; within that range the round-trip through the
little-endian layout is exact for all four bucket fields. -/
theorem parseBucket_roundtrip_small (c r l u : Nat) (hc : c < 2 ^ 53) (hr : r < 2 ^ 53)
    (hl : l < 2 ^ 53) (hu : u < 2 ^ 53) :
    parseBucket (encodeBucket c r l u) =
      { capacity := c, refillPeriod := r, level := l, lastUpdate := u } := by
  have e0 : readU64LE (encodeBucket c r l u) 0 = c := by
    simp [encodeBucket, encodeU64LE, readU64LE]
    omega
  have e8 : readU64LE (encodeBucket c r l u) 8 = r := by
    simp [encodeBucket, encodeU64LE, readU64LE]
    omega
  have e16 : readU64LE (encodeBucket c r l u) 16 = l := by
    simp [encodeBucket, encodeU64LE, readU64LE]
    omega
  have e24 : readU64LE (encodeBucket c r l u) 24 = u := by
    simp [encodeBucket, encodeU64LE, readU64LE]
    omega
  unfold parseBucket
  rw [e0, e8, e16, e24, jsNumberOfU64_small c hc, jsNumberOfU64_small r hr,
    jsNumberOfU64_small l hl, jsNumberOfU64_small u hu]

theorem parseBucket_roundtrip_small_witness :
    parseBucket (encodeBucket 1 2 3 9007199254740991) =
      { capacity := 1, refillPeriod := 2, level := 3, lastUpdate := 9007199254740991 } :=
  parseBucket_roundtrip_small 1 2 3 9007199254740991 (by decide) (by decide) (by decide)
    (by decide)

/-- C5 counterexample: two KeyState-sized buffers whose leading 8 bytes
differ both decode to a record, and likewise two promo-sized buffers; since
at most one of two distinct discriminators can match a schema tag, a buffer
of the expected size with a non-matching tag is decoded rather than failing
closed. -/
theorem discriminator_unchecked_cex :
    (parseKeyState (List.replicate 8 255 ++ List.replicate 129 0)).isSome = true ∧
      (parseKeyState (List.replicate 137 0)).isSome = true ∧
      jsSlice (List.replicate 8 255 ++ List.replicate 129 0) 0 8 ≠
        jsSlice (List.replicate 137 0) 0 8 ∧
      (parsePromo (255 :: List.replicate 326 0)).isSome = true ∧
      (parsePromo (List.replicate 327 0)).isSome = true := by decide

/-- C5 amended: the key-state and promo decoders validate only the buffer
length and never inspect the 8-byte discriminator: every buffer of at least
the expected size decodes to a record regardless of its leading bytes
(account-type separation relies on the size filters of the account query). -/
theorem decoders_check_length_only (data : List Nat) :
    (KEY_STATE_SIZE ≤ data.length → (parseKeyState data).isSome = true) ∧
      (PROMO_CONFIG_SIZE ≤ data.length → (parsePromo data).isSome = true) := by
  constructor
  · intro h
    unfold parseKeyState
    rw [if_neg (by omega)]
    rfl
  · intro h
    unfold parsePromo
    rw [if_neg (by omega)]
    rfl

theorem decoders_check_length_only_witness :
    ((parseKeyState (List.replicate 137 2)).isSome = true) ∧
      ((parsePromo (List.replicate 327 2)).isSome = true) :=
  ⟨(decoders_check_length_only _).1 (by decide), (decoders_check_length_only _).2 (by decide)⟩

/-- C6 counterexample: a promo buffer whose name-suffix length prefix
(4294967295) would read far past the buffer end is not dropped: it stays in
the resolved promo list and its string decodes as the substituted empty
value. -/
theorem overlong_string_kept_cex :
    (List.replicate 90 0 ++ [255, 255, 255, 255] ++ List.replicate 233 0).length <
        90 + 4 + readU32LE (List.replicate 90 0 ++ [255, 255, 255, 255] ++
          List.replicate 233 0) 90 ∧
      (promosFromAccounts [List.replicate 90 0 ++ [255, 255, 255, 255] ++
        List.replicate 233 0]).length = 1 ∧
      (parsePromo (List.replicate 90 0 ++ [255, 255, 255, 255] ++
        List.replicate 233 0)).map PromoRecord.nameSuffix = some [] := by decide

/-- C6 amended: a length prefix that would read past the buffer end makes
parseBorshString return the empty value with 4 bytes consumed, and a promo
record with such a name-suffix prefix is still returned (with the empty
string) rather than dropped as a decode failure. -/
theorem overlong_string_empty_value (data : List Nat) :
    (∀ offset, offset + 4 ≤ data.length →
      data.length < offset + 4 + readU32LE data offset →
      parseBorshString data offset = ([], 4)) ∧
    (PROMO_CONFIG_SIZE ≤ data.length → data.length < 94 + readU32LE data 90 →
      ∃ pr, parsePromo data = some pr ∧ pr.nameSuffix = []) := by
  have hb : ∀ offset, offset + 4 ≤ data.length →
      data.length < offset + 4 + readU32LE data offset →
      parseBorshString data offset = ([], 4) := by
    intro offset h4 hover
    unfold parseBorshString
    rw [if_neg (by omega), if_pos (by omega)]
  refine ⟨hb, fun hlen hover => ?_⟩
  have hns : parseBorshString data 90 = ([], 4) := by
    apply hb 90 (by unfold PROMO_CONFIG_SIZE at hlen; omega)
    omega
  unfold parsePromo
  rw [if_neg (by omega)]
  exact ⟨_, rfl, by rw [hns]⟩

theorem overlong_string_empty_value_witness :
    parseBorshString (List.replicate 90 0 ++ [7, 0, 0, 255] ++ List.replicate 233 0) 90 =
        ([], 4) ∧
      ∃ pr, parsePromo (List.replicate 90 0 ++ [7, 0, 0, 255] ++ List.replicate 233 0) =
          some pr ∧ pr.nameSuffix = [] :=
  ⟨(overlong_string_empty_value _).1 90 (by decide) (by decide),
    (overlong_string_empty_value _).2 (by decide) (by decide)⟩

theorem updateBest_allFound (st : ScanSt) (posPda : List Nat) (permissions : Nat)
    (asset : List Nat) :
    (updateBest st posPda permissions asset).allFound = st.allFound := by
  unfold updateBest
  split <;> rfl

theorem updateBest_best (st : ScanSt) (posPda : List Nat) (p : Nat) (a : List Nat) :
    (updateBest st posPda p a).best =
      if isBetterCand st.best p then some { permissions := p, assetPubkey := a }
      else st.best := by
  unfold updateBest
  by_cases h : isBetterCand st.best p
  · simp [h]
  · simp [h]

theorem isBetterCand_some (p q : Nat) (a : List Nat) :
    isBetterCand (some { permissions := p, assetPubkey := a }) q =
      (decide (popcount p < popcount q) || (decide (popcount q = popcount p) &&
        decide (q &&& PERM_MANAGE_KEYS ≠ 0) && decide (p &&& PERM_MANAGE_KEYS = 0))) := rfl

theorem updateBest_empty_best (posPda : List Nat) (p : Nat) (a : List Nat) :
    (updateBest emptyScanSt posPda p a).best = some { permissions := p, assetPubkey := a } := by
  simp [updateBest, isBetterCand, emptyScanSt]

/-- C2: the pairwise candidate ranking of discoverPosition: a strictly larger
popcount wins in either discovery order; on equal popcount the mask holding
the manage bit 0x20 beats one that lacks it, in either order; when popcounts
are equal and the manage-bit status is the same, the candidate discovered
first wins; and concretely mask 25 (0b00011001) beats mask 33 (0b00100001)
in either order. -/
theorem ranking_pairwise (p q : Nat) (pos1 pos2 a1 a2 : List Nat) :
    (popcount q < popcount p →
      (updateBest (updateBest emptyScanSt pos1 p a1) pos2 q a2).best =
          some { permissions := p, assetPubkey := a1 } ∧
        (updateBest (updateBest emptyScanSt pos2 q a2) pos1 p a1).best =
          some { permissions := p, assetPubkey := a1 }) ∧
    (popcount p = popcount q → p &&& PERM_MANAGE_KEYS ≠ 0 → q &&& PERM_MANAGE_KEYS = 0 →
      (updateBest (updateBest emptyScanSt pos1 p a1) pos2 q a2).best =
          some { permissions := p, assetPubkey := a1 } ∧
        (updateBest (updateBest emptyScanSt pos2 q a2) pos1 p a1).best =
          some { permissions := p, assetPubkey := a1 }) ∧
    (popcount p = popcount q → (p &&& PERM_MANAGE_KEYS = 0 ↔ q &&& PERM_MANAGE_KEYS = 0) →
      (updateBest (updateBest emptyScanSt pos1 p a1) pos2 q a2).best =
          some { permissions := p, assetPubkey := a1 } ∧
        (updateBest (updateBest emptyScanSt pos2 q a2) pos1 p a1).best =
          some { permissions := q, assetPubkey := a2 }) ∧
    ((updateBest (updateBest emptyScanSt pos1 25 a1) pos2 33 a2).best =
        some { permissions := 25, assetPubkey := a1 } ∧
      (updateBest (updateBest emptyScanSt pos1 33 a1) pos2 25 a2).best =
        some { permissions := 25, assetPubkey := a2 }) := by
  refine ⟨fun h => ?_, fun hpq hp hq => ?_, fun hpq hiff => ?_, ?_, ?_⟩
  · have hf : isBetterCand (some { permissions := p, assetPubkey := a1 }) q = false := by
      simp only [isBetterCand]
      rw [decide_eq_false (by omega : ¬ popcount p < popcount q),
        decide_eq_false (by omega : ¬ popcount q = popcount p)]
      rfl
    have hb : isBetterCand (some { permissions := q, assetPubkey := a2 }) p = true := by
      simp only [isBetterCand]
      rw [decide_eq_true h]
      rfl
    constructor
    · rw [updateBest_best, updateBest_empty_best, hf]
      simp
    · rw [updateBest_best, updateBest_empty_best, hb]
      simp
  · have hf : isBetterCand (some { permissions := p, assetPubkey := a1 }) q = false := by
      simp only [isBetterCand]
      rw [decide_eq_false (by omega : ¬ popcount p < popcount q),
        decide_eq_false (by simp [hq] : ¬ q &&& PERM_MANAGE_KEYS ≠ 0)]
      simp
    have hb : isBetterCand (some { permissions := q, assetPubkey := a2 }) p = true := by
      simp only [isBetterCand]
      rw [decide_eq_true hpq, decide_eq_true hp, decide_eq_true hq]
      simp
    constructor
    · rw [updateBest_best, updateBest_empty_best, hf]
      simp
    · rw [updateBest_best, updateBest_empty_best, hb]
      simp
  · have hf : isBetterCand (some { permissions := p, assetPubkey := a1 }) q = false := by
      simp only [isBetterCand]
      rw [decide_eq_false (by omega : ¬ popcount p < popcount q)]
      by_cases hz : p &&& PERM_MANAGE_KEYS = 0
      · rw [decide_eq_false (by simp [hiff.mp hz] : ¬ q &&& PERM_MANAGE_KEYS ≠ 0)]
        simp
      · rw [decide_eq_false hz]
        simp
    have hb : isBetterCand (some { permissions := q, assetPubkey := a2 }) p = false := by
      simp only [isBetterCand]
      rw [decide_eq_false (by omega : ¬ popcount q < popcount p)]
      by_cases hz : q &&& PERM_MANAGE_KEYS = 0
      · rw [decide_eq_false (by simp [hiff.mpr hz] : ¬ p &&& PERM_MANAGE_KEYS ≠ 0)]
        simp
      · rw [decide_eq_false hz]
        simp
    constructor
    · rw [updateBest_best, updateBest_empty_best, hf]
      simp
    · rw [updateBest_best, updateBest_empty_best, hb]
      simp
  · have hf : isBetterCand (some { permissions := 25, assetPubkey := a1 }) 33 = false := by
      rw [isBetterCand_some]
      decide
    rw [updateBest_best, updateBest_empty_best, hf]
    simp
  · have hb : isBetterCand (some { permissions := 33, assetPubkey := a1 }) 25 = true := by
      rw [isBetterCand_some]
      decide
    rw [updateBest_best, updateBest_empty_best, hb]
    simp

theorem ranking_pairwise_witness :
    ((updateBest (updateBest emptyScanSt [1] 7 [3]) [2] 1 [4]).best =
        some { permissions := 7, assetPubkey := [3] } ∧
      (updateBest (updateBest emptyScanSt [2] 1 [4]) [1] 7 [3]).best =
        some { permissions := 7, assetPubkey := [3] }) ∧
    ((updateBest (updateBest emptyScanSt [1] 33 [3]) [2] 3 [4]).best =
        some { permissions := 33, assetPubkey := [3] } ∧
      (updateBest (updateBest emptyScanSt [2] 3 [4]) [1] 33 [3]).best =
        some { permissions := 33, assetPubkey := [3] }) ∧
    ((updateBest (updateBest emptyScanSt [1] 5 [3]) [2] 5 [4]).best =
        some { permissions := 5, assetPubkey := [3] } ∧
      (updateBest (updateBest emptyScanSt [2] 5 [4]) [1] 5 [3]).best =
        some { permissions := 5, assetPubkey := [4] }) :=
  ⟨(ranking_pairwise 7 1 [1] [2] [3] [4]).1 (by decide),
   (ranking_pairwise 33 3 [1] [2] [3] [4]).2.1 (by decide) (by decide) (by decide),
   (ranking_pairwise 5 5 [1] [2] [3] [4]).2.2.1 (by decide) (by decide)⟩

theorem readU32At_isSome (data : List Nat) (i : Nat) (h : i + 4 ≤ data.length) :
    ∃ k, readU32At data i = some k := by
  unfold readU32At
  rw [List.getElem?_eq_getElem (by omega), List.getElem?_eq_getElem (by omega),
    List.getElem?_eq_getElem (by omega), List.getElem?_eq_getElem (by omega)]
  exact ⟨_, rfl⟩

theorem bytesEqAt_isSome (data : List Nat) :
    ∀ needle start, start + needle.length ≤ data.length →
      ∃ b, bytesEqAt data start needle = some b := by
  intro needle
  induction needle with
  | nil => exact fun start _ => ⟨true, rfl⟩
  | cons b bs ih =>
    intro start h
    have hlt : start < data.length := by simp at h; omega
    unfold bytesEqAt
    rw [List.getElem?_eq_getElem hlt]
    show ∃ r, (if data[start] ≠ b then some false else bytesEqAt data (start + 1) bs) =
      some r
    by_cases hx : data[start] ≠ b
    · exact ⟨false, by rw [if_pos hx]⟩
    · obtain ⟨r, hr⟩ := ih (start + 1) (by simp at h ⊢; omega)
      exact ⟨r, by rw [if_neg hx]; exact hr⟩

theorem sliceAt_isSome (data : List Nat) (s n : Nat) (h : s + n ≤ data.length) :
    sliceAt data s n = some ((data.drop s).take n) := by
  unfold sliceAt
  rw [if_pos h]

theorem bytesEqAt_true (data : List Nat) :
    ∀ needle start, bytesEqAt data start needle = some true →
      jsSlice data start (start + needle.length) = needle := by
  intro needle
  induction needle with
  | nil => intro start _; simp [jsSlice]
  | cons b bs ih =>
    intro start h
    unfold bytesEqAt at h
    rcases hg : data[start]? with _ | x
    · rw [hg] at h; exact absurd h (by simp)
    · rw [hg] at h
      replace h : (if x ≠ b then some false else bytesEqAt data (start + 1) bs) =
        some true := h
      by_cases hx : x ≠ b
      · rw [if_pos hx] at h; exact absurd h (by simp)
      · rw [if_neg hx] at h
        have hlt : start < data.length := by
          by_contra hge
          rw [List.getElem?_eq_none (by omega)] at hg
          exact absurd hg (by simp)
        have hxb : x = b := by omega
        have hdrop : data.drop start = x :: data.drop (start + 1) := by
          rw [List.drop_eq_getElem_cons hlt]
          congr 1
          have := List.getElem?_eq_getElem hlt
          rw [hg] at this
          exact (Option.some_inj.mp this).symm
        have htail := ih (start + 1) h
        unfold jsSlice at htail ⊢
        rw [hdrop]
        have harith : start + (b :: bs).length - start = bs.length + 1 := by simp
        rw [harith, List.take_succ_cons, hxb]
        have harith2 : start + 1 + bs.length - (start + 1) = bs.length := by omega
        rw [harith2] at htail
        rw [htail]

theorem attrScanAux_ne_oob (data needle : List Nat) :
    ∀ fuel i, data.length ≤ fuel + i → attrScanAux data needle fuel i ≠ AttrScan.oob := by
  intro fuel
  induction fuel with
  | zero =>
    intro i hle
    unfold attrScanAux
    rw [if_pos (show (data.length : Int) - needle.length - 8 ≤ (i : Int) by omega)]
    simp
  | succ fuel ih =>
    intro i hle
    by_cases hc1 : (data.length : Int) - needle.length - 8 ≤ (i : Int)
    · unfold attrScanAux
      rw [if_pos hc1]
      simp
    · by_cases hc2 : data.length < i + 4 + needle.length + 4
      · unfold attrScanAux
        rw [if_neg hc1, if_pos hc2]
        simp
      · obtain ⟨keyLen, hk⟩ := readU32At_isSome data i (by omega)
        unfold attrScanAux
        rw [if_neg hc1, if_neg hc2]
        simp only [hk]
        by_cases hkl : keyLen ≠ needle.length
        · rw [if_pos hkl]
          exact ih (i + 1) (by omega)
        · rw [if_neg hkl]
          obtain ⟨bres, hb⟩ := bytesEqAt_isSome data needle (i + 4) (by omega)
          cases bres
          · simp only [hb]
            exact ih (i + 1) (by omega)
          · simp only [hb]
            rw [if_neg hc2]
            obtain ⟨vlen, hv⟩ := readU32At_isSome data (i + 4 + needle.length) (by omega)
            simp only [hv]
            by_cases hcv : vlen = 0 ∨ 200 < vlen ∨
                data.length < i + 4 + needle.length + 4 + vlen
            · rw [if_pos hcv]
              exact ih (i + 1) (by omega)
            · rw [if_neg hcv]
              rw [sliceAt_isSome data (i + 4 + needle.length + 4) vlen (by omega)]
              simp

theorem attrScanAux_found (data needle : List Nat) :
    ∀ fuel i v, attrScanAux data needle fuel i = AttrScan.found v →
      ∃ i0 len, i ≤ i0 ∧
        readU32At data i0 = some needle.length ∧
        bytesEqAt data (i0 + 4) needle = some true ∧
        readU32At data (i0 + 4 + needle.length) = some len ∧
        len ≠ 0 ∧ len ≤ 200 ∧ i0 + 4 + needle.length + 4 + len ≤ data.length ∧
        v = (data.drop (i0 + 4 + needle.length + 4)).take len := by
  intro fuel
  induction fuel with
  | zero =>
    intro i v hfound
    unfold attrScanAux at hfound
    by_cases hc1 : (data.length : Int) - needle.length - 8 ≤ (i : Int)
    · rw [if_pos hc1] at hfound
      exact absurd hfound (by simp)
    · rw [if_neg hc1] at hfound
      by_cases hc2 : data.length < i + 4 + needle.length + 4
      · rw [if_pos hc2] at hfound
        exact absurd hfound (by simp)
      · rw [if_neg hc2] at hfound
        exact absurd (show AttrScan.oob = AttrScan.found v from hfound) (by simp)
  | succ fuel ih =>
    intro i v hfound
    unfold attrScanAux at hfound
    by_cases hc1 : (data.length : Int) - needle.length - 8 ≤ (i : Int)
    · rw [if_pos hc1] at hfound
      exact absurd hfound (by simp)
    · rw [if_neg hc1] at hfound
      by_cases hc2 : data.length < i + 4 + needle.length + 4
      · rw [if_pos hc2] at hfound
        exact absurd hfound (by simp)
      · rw [if_neg hc2] at hfound
        rcases hk : readU32At data i with _ | keyLen
        · obtain ⟨k, hx⟩ := readU32At_isSome data i (by omega)
          rw [hx] at hk
          exact absurd hk (by simp)
        · simp only [hk] at hfound
          by_cases hkl : keyLen ≠ needle.length
          · rw [if_pos hkl] at hfound
            obtain ⟨i0, len, hi0, rest⟩ := ih (i + 1) v hfound
            exact ⟨i0, len, by omega, rest⟩
          · rw [if_neg hkl] at hfound
            have hkeq : keyLen = needle.length := by omega
            obtain ⟨bres, hb⟩ := bytesEqAt_isSome data needle (i + 4) (by omega)
            cases bres
            · simp only [hb] at hfound
              obtain ⟨i0, len, hi0, rest⟩ := ih (i + 1) v hfound
              exact ⟨i0, len, by omega, rest⟩
            · simp only [hb] at hfound
              rw [if_neg hc2] at hfound
              obtain ⟨vlen, hv⟩ := readU32At_isSome data (i + 4 + needle.length) (by omega)
              simp only [hv] at hfound
              by_cases hcv : vlen = 0 ∨ 200 < vlen ∨
                  data.length < i + 4 + needle.length + 4 + vlen
              · rw [if_pos hcv] at hfound
                obtain ⟨i0, len, hi0, rest⟩ := ih (i + 1) v hfound
                exact ⟨i0, len, by omega, rest⟩
              · rw [if_neg hcv] at hfound
                rw [sliceAt_isSome data (i + 4 + needle.length + 4) vlen (by omega)] at hfound
                have hveq : v = (data.drop (i + 4 + needle.length + 4)).take vlen := by
                  cases hfound
                  rfl
                refine ⟨i, vlen, le_refl i, ?_, hb, hv, by omega, by omega, by omega, hveq⟩
                rw [hk, hkeq]

/-- C9: the attribute scan never performs an out-of-bounds access (every
checked read succeeds, and the loop fuel never runs out), and it returns a
value only when some index at or beyond the scan start holds a length prefix
exactly equal to the needle length followed by exactly the needle bytes,
with the returned value the in-bounds length-prefixed string right after the
key. -/
theorem attribute_scan_exact_and_bounded (data needle : List Nat) :
    attrScanAux data needle data.length 66 ≠ AttrScan.oob ∧
    ∀ v, readAttributeFromAssetData data needle = some v →
      ∃ i len, 66 ≤ i ∧
        readU32At data i = some needle.length ∧
        jsSlice data (i + 4) (i + 4 + needle.length) = needle ∧
        readU32At data (i + 4 + needle.length) = some len ∧
        len ≠ 0 ∧ len ≤ 200 ∧ i + 4 + needle.length + 4 + len ≤ data.length ∧
        v = jsSlice data (i + 4 + needle.length + 4) (i + 4 + needle.length + 4 + len) := by
  constructor
  · exact attrScanAux_ne_oob data needle data.length 66 (by omega)
  · intro v hv
    have hfound : attrScanAux data needle data.length 66 = AttrScan.found v := by
      unfold readAttributeFromAssetData at hv
      rcases hres : attrScanAux data needle data.length 66 with v0 | _ | _
      · rw [hres] at hv
        have hvv : some v0 = some v := hv
        rw [Option.some_inj.mp hvv]
      · rw [hres] at hv
        exact absurd (show (none : Option (List Nat)) = some v from hv) (by simp)
      · rw [hres] at hv
        exact absurd (show (none : Option (List Nat)) = some v from hv) (by simp)
    obtain ⟨i0, len, hi0, hkey, hbytes, hvl, h0, h200, hbound, hveq⟩ :=
      attrScanAux_found data needle data.length 66 v hfound
    refine ⟨i0, len, hi0, hkey, bytesEqAt_true data needle (i0 + 4) hbytes, hvl,
      h0, h200, hbound, ?_⟩
    rw [hveq]
    unfold jsSlice
    congr 1
    omega

theorem attribute_scan_witness :
    attrScanAux delegAssetBytesCex permissionsNeedle delegAssetBytesCex.length 66 ≠
        AttrScan.oob ∧
      ∃ i len, 66 ≤ i ∧
        readU32At delegAssetBytesCex i = some permissionsNeedle.length ∧
        jsSlice delegAssetBytesCex (i + 4) (i + 4 + permissionsNeedle.length) =
          permissionsNeedle ∧
        readU32At delegAssetBytesCex (i + 4 + permissionsNeedle.length) = some len ∧
        len ≠ 0 ∧ len ≤ 200 ∧
        i + 4 + permissionsNeedle.length + 4 + len ≤ delegAssetBytesCex.length ∧
        [57] = jsSlice delegAssetBytesCex (i + 4 + permissionsNeedle.length + 4)
          (i + 4 + permissionsNeedle.length + 4 + len) :=
  ⟨(attribute_scan_exact_and_bounded delegAssetBytesCex permissionsNeedle).1,
   (attribute_scan_exact_and_bounded delegAssetBytesCex permissionsNeedle).2 [57] (by decide)⟩

/-- C8: on the administrator path, an asset that parses, is owned by the
target wallet and carries no permissions attribute is recorded as a
candidate whose permission mask is PRESET_ADMIN = 0x3F, not zero. -/
theorem admin_missing_permissions_preset (wallet : List Nat) (st : ScanSt)
    (posPda adminAsset data : List Nat) (parsed : MplAsset)
    (hp : parseMplCoreAsset data = some parsed) (ho : parsed.owner = wallet)
    (hperm : readPermissionsFromAssetData data = none) :
    (adminStep wallet st ((posPda, adminAsset), some data)).allFound =
      st.allFound ++ [⟨posPda, PRESET_ADMIN, adminAsset, true, adminAsset⟩] ∧
      PRESET_ADMIN = 63 := by
  refine ⟨?_, rfl⟩
  unfold adminStep
  simp only [hp, ho, hperm]
  rw [if_neg (by simp)]
  rw [updateBest_allFound]
  simp

theorem admin_missing_permissions_preset_witness :
    (adminStep walletCex emptyScanSt ((posPdaCex, adminAssetCex),
        some adminAssetBytesCex)).allFound =
      emptyScanSt.allFound ++ [⟨posPdaCex, PRESET_ADMIN, adminAssetCex, true, adminAssetCex⟩] ∧
      PRESET_ADMIN = 63 :=
  admin_missing_permissions_preset walletCex emptyScanSt posPdaCex adminAssetCex
    adminAssetBytesCex { owner := walletCex, updateAuthority := none }
    (by decide) (by decide) (by decide)

theorem isBetterCand_none (p : Nat) : isBetterCand none p = true := rfl

theorem updateBest_after_push_inv (st : ScanSt) (cand : Candidate) (posPda : List Nat)
    (p : Nat) (a : List Nat)
    (h1 : st.bestPos = none ↔ st.allFound = [])
    (h2 : st.best = none ↔ st.allFound = []) :
    ((updateBest { st with allFound := st.allFound ++ [cand] } posPda p a).bestPos = none ↔
      (updateBest { st with allFound := st.allFound ++ [cand] } posPda p a).allFound = []) ∧
    ((updateBest { st with allFound := st.allFound ++ [cand] } posPda p a).best = none ↔
      (updateBest { st with allFound := st.allFound ++ [cand] } posPda p a).allFound = []) := by
  unfold updateBest
  by_cases hib : isBetterCand st.best p
  · rw [if_pos hib]
    constructor <;> simp
  · rw [if_neg hib]
    have hbs : st.best ≠ none := fun hn => hib (by rw [hn]; exact isBetterCand_none p)
    have haf : st.allFound ≠ [] := fun he => hbs (h2.mpr he)
    have hbp : st.bestPos ≠ none := fun hn => haf (h1.mp hn)
    constructor
    · simp [hbp]
    · simp [hbs]

theorem adminStep_inv (wallet : List Nat) (st : ScanSt)
    (e : (List Nat × List Nat) × Option (List Nat))
    (h1 : st.bestPos = none ↔ st.allFound = [])
    (h2 : st.best = none ↔ st.allFound = []) :
    ((adminStep wallet st e).bestPos = none ↔ (adminStep wallet st e).allFound = []) ∧
      ((adminStep wallet st e).best = none ↔ (adminStep wallet st e).allFound = []) := by
  unfold adminStep
  rcases e with ⟨⟨posPda, adminAsset⟩, info⟩
  rcases info with _ | data
  · exact ⟨h1, h2⟩
  rcases hp : parseMplCoreAsset data with _ | parsed
  · simp only [hp]
    exact ⟨h1, h2⟩
  simp only [hp]
  by_cases ho : parsed.owner ≠ wallet
  · rw [if_pos ho]
    exact ⟨h1, h2⟩
  rw [if_neg ho]
  exact updateBest_after_push_inv st _ posPda _ adminAsset h1 h2

theorem delegatedStep_inv (wallet : List Nat) (adminAssetToPos : List (List Nat × List Nat))
    (pkOfStr : List Nat → List Nat) (st : ScanSt)
    (e : (List Nat × List Nat) × Option (List Nat))
    (h1 : st.bestPos = none ↔ st.allFound = [])
    (h2 : st.best = none ↔ st.allFound = []) :
    ((delegatedStep wallet adminAssetToPos pkOfStr st e).bestPos = none ↔
      (delegatedStep wallet adminAssetToPos pkOfStr st e).allFound = []) ∧
      ((delegatedStep wallet adminAssetToPos pkOfStr st e).best = none ↔
        (delegatedStep wallet adminAssetToPos pkOfStr st e).allFound = []) := by
  unfold delegatedStep
  rcases e with ⟨⟨ksPda, asset⟩, info⟩
  rcases info with _ | data
  · exact ⟨h1, h2⟩
  rcases hp : parseMplCoreAsset data with _ | parsed
  · simp only [hp]
    exact ⟨h1, h2⟩
  simp only [hp]
  by_cases ho : parsed.owner ≠ wallet
  · rw [if_pos ho]
    exact ⟨h1, h2⟩
  rw [if_neg ho]
  rcases hperm : readPermissionsFromAssetData data with _ | permissions
  · simp only [hperm]
    exact ⟨h1, h2⟩
  simp only [hperm]
  rcases hbind : readPositionBindingFromAssetData data with _ | binding
  · simp only [hbind]
    exact ⟨h1, h2⟩
  simp only [hbind]
  by_cases hemp : binding = []
  · rw [if_pos hemp]
    exact ⟨h1, h2⟩
  rw [if_neg hemp]
  rcases hlook : mapGet adminAssetToPos binding with _ | posPda
  · simp only [hlook]
    exact ⟨h1, h2⟩
  simp only [hlook]
  exact updateBest_after_push_inv st _ posPda permissions asset h1 h2

theorem foldl_scan_inv {α : Type} (step : ScanSt → α → ScanSt)
    (hstep : ∀ st e, (st.bestPos = none ↔ st.allFound = []) →
      (st.best = none ↔ st.allFound = []) →
      (((step st e).bestPos = none ↔ (step st e).allFound = []) ∧
        ((step st e).best = none ↔ (step st e).allFound = []))) :
    ∀ (l : List α) (st : ScanSt),
      (st.bestPos = none ↔ st.allFound = []) → (st.best = none ↔ st.allFound = []) →
      ((l.foldl step st).bestPos = none ↔ (l.foldl step st).allFound = []) ∧
        ((l.foldl step st).best = none ↔ (l.foldl step st).allFound = []) := by
  intro l
  induction l with
  | nil => exact fun st h1 h2 => ⟨h1, h2⟩
  | cons a as ih =>
    intro st h1 h2
    obtain ⟨g1, g2⟩ := hstep st a h1 h2
    exact ih (step st a) g1 g2

theorem adminScan_inv (wallet : List Nat) (positions : List (List Nat × List Nat))
    (fetch : List Nat → Option (List Nat)) :
    ((adminScan wallet positions fetch).bestPos = none ↔
      (adminScan wallet positions fetch).allFound = []) ∧
      ((adminScan wallet positions fetch).best = none ↔
        (adminScan wallet positions fetch).allFound = []) :=
  foldl_scan_inv (adminStep wallet) (fun st e => adminStep_inv wallet st e)
    (positions.map (fun p => (p, fetch p.2))) emptyScanSt
    (by simp [emptyScanSt]) (by simp [emptyScanSt])

theorem adminStep_allFound_append (wallet : List Nat) (st : ScanSt)
    (e : (List Nat × List Nat) × Option (List Nat)) :
    ∃ t, (adminStep wallet st e).allFound = st.allFound ++ t := by
  unfold adminStep
  rcases e with ⟨⟨posPda, adminAsset⟩, info⟩
  rcases info with _ | data
  · exact ⟨[], by simp⟩
  rcases hp : parseMplCoreAsset data with _ | parsed
  · simp only [hp]
    exact ⟨[], by simp⟩
  simp only [hp]
  by_cases ho : parsed.owner ≠ wallet
  · rw [if_pos ho]
    exact ⟨[], by simp⟩
  rw [if_neg ho]
  exact ⟨_, by rw [updateBest_allFound]⟩

theorem delegatedStep_allFound_append (wallet : List Nat)
    (adminAssetToPos : List (List Nat × List Nat)) (pkOfStr : List Nat → List Nat)
    (st : ScanSt) (e : (List Nat × List Nat) × Option (List Nat)) :
    ∃ t, (delegatedStep wallet adminAssetToPos pkOfStr st e).allFound =
      st.allFound ++ t := by
  unfold delegatedStep
  rcases e with ⟨⟨ksPda, asset⟩, info⟩
  rcases info with _ | data
  · exact ⟨[], by simp⟩
  rcases hp : parseMplCoreAsset data with _ | parsed
  · simp only [hp]
    exact ⟨[], by simp⟩
  simp only [hp]
  by_cases ho : parsed.owner ≠ wallet
  · rw [if_pos ho]
    exact ⟨[], by simp⟩
  rw [if_neg ho]
  rcases hperm : readPermissionsFromAssetData data with _ | permissions
  · simp only [hperm]
    exact ⟨[], by simp⟩
  simp only [hperm]
  rcases hbind : readPositionBindingFromAssetData data with _ | binding
  · simp only [hbind]
    exact ⟨[], by simp⟩
  simp only [hbind]
  by_cases hemp : binding = []
  · rw [if_pos hemp]
    exact ⟨[], by simp⟩
  rw [if_neg hemp]
  rcases hlook : mapGet adminAssetToPos binding with _ | posPda
  · simp only [hlook]
    exact ⟨[], by simp⟩
  simp only [hlook]
  exact ⟨_, by rw [updateBest_allFound]⟩

theorem foldl_allFound_mem {α : Type} (step : ScanSt → α → ScanSt)
    (hmono : ∀ st e, ∃ t, (step st e).allFound = st.allFound ++ t) :
    ∀ (l : List α) (st : ScanSt) (c : Candidate), c ∈ st.allFound →
      c ∈ (l.foldl step st).allFound := by
  intro l
  induction l with
  | nil => exact fun st c hc => hc
  | cons a as ih =>
    intro st c hc
    simp only [List.foldl_cons]
    obtain ⟨t, ht⟩ := hmono st a
    exact ih (step st a) c (by rw [ht]; exact List.mem_append_left t hc)

theorem foldl_mem_entry {α : Type} (step : ScanSt → α → ScanSt)
    (hmono : ∀ st e, ∃ t, (step st e).allFound = st.allFound ++ t)
    (c : Candidate) (e : α) (happ : ∀ st, c ∈ (step st e).allFound) :
    ∀ (l : List α), e ∈ l → ∀ st, c ∈ (l.foldl step st).allFound := by
  intro l
  induction l with
  | nil => exact fun h => absurd h (List.not_mem_nil e)
  | cons a as ih =>
    intro he st
    simp only [List.foldl_cons]
    rcases List.mem_cons.mp he with rfl | hm
    · exact foldl_allFound_mem step hmono as (step st e) c (happ st)
    · exact ih hm (step st a)

theorem delegatedStep_records (wallet : List Nat)
    (adminAssetToPos : List (List Nat × List Nat)) (pkOfStr : List Nat → List Nat)
    (st : ScanSt) (ksPda asset data : List Nat) (parsed : MplAsset)
    (permissions : Nat) (binding posPda : List Nat)
    (hp : parseMplCoreAsset data = some parsed) (ho : parsed.owner = wallet)
    (hperm : readPermissionsFromAssetData data = some permissions)
    (hbind : readPositionBindingFromAssetData data = some binding)
    (hne : binding ≠ []) (hlook : mapGet adminAssetToPos binding = some posPda) :
    (⟨posPda, permissions, asset, false, pkOfStr binding⟩ : Candidate) ∈
      (delegatedStep wallet adminAssetToPos pkOfStr st ((ksPda, asset), some data)).allFound := by
  unfold delegatedStep
  simp only [hp, hperm, hbind, hlook]
  rw [if_neg (by simp [ho]), if_neg hne]
  rw [updateBest_allFound]
  exact List.mem_append_right _ (List.mem_singleton_self _)

/-- C1 counterexample: a concrete wallet, one position whose administrator
asset is owned by the wallet, and one delegated key asset which is owned by
the wallet, carries a permissions attribute (value 9) and a position
attribute resolving through the lookup table to the known position; the
delegated key satisfies every condition of the claim, yet the candidate
list holds only the administrator candidate: the delegated path was not
evaluated because an administrator candidate was already found, so the two
paths are not independent. -/
theorem delegated_path_not_independent_cex :
    parseMplCoreAsset delegAssetBytesCex =
        some { owner := walletCex, updateAuthority := none } ∧
      readPermissionsFromAssetData delegAssetBytesCex = some 9 ∧
      readPositionBindingFromAssetData delegAssetBytesCex = some adminAssetCex ∧
      mapGet [(id adminAssetCex, posPdaCex)] adminAssetCex = some posPdaCex ∧
      fetchCex delegAssetCex = some delegAssetBytesCex ∧
      (discoverPositionCandidates id id walletCex [(posPdaCex, adminAssetCex)]
          [(keyStatePdaCex, delegAssetCex)] fetchCex).allFound =
        [⟨posPdaCex, 63, adminAssetCex, true, adminAssetCex⟩] := by decide

set_option maxHeartbeats 1600000 in
/-- C1 amended: the delegated-key path is evaluated only when the
administrator path recorded no candidate: the discovery result is the
administrator candidates when there are any, and otherwise the result of
running the delegated scan after the administrator scan; in the latter case
every delegated key asset that is owned by the wallet, has a permissions
attribute and a nonempty position attribute resolving through the lookup
table to a known position is recorded as a candidate. -/
theorem delegated_path_gated_and_complete (pkStr pkOfStr : List Nat → List Nat)
    (wallet : List Nat) (positions keyStates : List (List Nat × List Nat))
    (fetch : List Nat → Option (List Nat)) :
    ((discoverPositionCandidates pkStr pkOfStr wallet positions keyStates fetch).allFound =
      if (adminScan wallet positions fetch).allFound = [] then
        (delegatedScan wallet (positions.map (fun p => (pkStr p.2, p.1))) pkOfStr
          keyStates fetch (adminScan wallet positions fetch)).allFound
      else (adminScan wallet positions fetch).allFound) ∧
    ((adminScan wallet positions fetch).allFound = [] →
      ∀ ksPda asset data parsed permissions binding posPda,
        (ksPda, asset) ∈ keyStates →
        fetch asset = some data →
        parseMplCoreAsset data = some parsed →
        parsed.owner = wallet →
        readPermissionsFromAssetData data = some permissions →
        readPositionBindingFromAssetData data = some binding →
        binding ≠ [] →
        mapGet (positions.map (fun p => (pkStr p.2, p.1))) binding = some posPda →
        (⟨posPda, permissions, asset, false, pkOfStr binding⟩ : Candidate) ∈
          (discoverPositionCandidates pkStr pkOfStr wallet positions
            keyStates fetch).allFound) := by
  constructor
  · show (if (adminScan wallet positions fetch).bestPos = none ∧ keyStates ≠ [] then
        delegatedScan wallet (positions.map (fun p => (pkStr p.2, p.1))) pkOfStr
          keyStates fetch (adminScan wallet positions fetch)
      else adminScan wallet positions fetch).allFound = _
    by_cases hks : keyStates = []
    · subst hks
      rw [if_neg (by simp)]
      by_cases haf : (adminScan wallet positions fetch).allFound = []
      · rw [if_pos haf]
        rfl
      · rw [if_neg haf]
    · by_cases hbp : (adminScan wallet positions fetch).bestPos = none
      · have haf := (adminScan_inv wallet positions fetch).1.mp hbp
        rw [if_pos ⟨hbp, hks⟩, if_pos haf]
      · have haf : (adminScan wallet positions fetch).allFound ≠ [] :=
          fun he => hbp ((adminScan_inv wallet positions fetch).1.mpr he)
        rw [if_neg (by tauto), if_neg haf]
  · intro hempty ksPda asset data parsed permissions binding posPda hks hfetch hp ho
      hperm hbind hne hlook
    have hbp : (adminScan wallet positions fetch).bestPos = none :=
      (adminScan_inv wallet positions fetch).1.mpr hempty
    have hksne : keyStates ≠ [] := fun h => by
      subst h
      exact absurd hks (List.not_mem_nil _)
    show (⟨posPda, permissions, asset, false, pkOfStr binding⟩ : Candidate) ∈
      (if (adminScan wallet positions fetch).bestPos = none ∧ keyStates ≠ [] then
        delegatedScan wallet (positions.map (fun p => (pkStr p.2, p.1))) pkOfStr
          keyStates fetch (adminScan wallet positions fetch)
      else adminScan wallet positions fetch).allFound
    rw [if_pos ⟨hbp, hksne⟩]
    unfold delegatedScan
    have hmem : ((ksPda, asset), fetch asset) ∈
        keyStates.map (fun ks => (ks, fetch ks.2)) :=
      List.mem_map_of_mem (fun ks => (ks, fetch ks.2)) hks
    rw [hfetch] at hmem
    have happ : ∀ st, (⟨posPda, permissions, asset, false, pkOfStr binding⟩ : Candidate) ∈
        (delegatedStep wallet (positions.map (fun p => (pkStr p.2, p.1))) pkOfStr st
          ((ksPda, asset), some data)).allFound :=
      fun st => delegatedStep_records wallet (positions.map (fun p => (pkStr p.2, p.1)))
        pkOfStr st ksPda asset data parsed permissions binding posPda hp ho hperm
        hbind hne hlook
    exact foldl_mem_entry
      (delegatedStep wallet (positions.map (fun p => (pkStr p.2, p.1))) pkOfStr)
      (fun st e => delegatedStep_allFound_append wallet
        (positions.map (fun p => (pkStr p.2, p.1))) pkOfStr st e)
      (⟨posPda, permissions, asset, false, pkOfStr binding⟩ : Candidate)
      ((ksPda, asset), some data) happ
      (keyStates.map (fun ks => (ks, fetch ks.2))) hmem
      (adminScan wallet positions fetch)

theorem delegated_path_gated_witness :
    ((discoverPositionCandidates id id walletCex [(posPdaCex, adminAssetCex)]
        [(keyStatePdaCex, delegAssetCex)] fetchDelegOnlyCex).allFound =
      if (adminScan walletCex [(posPdaCex, adminAssetCex)] fetchDelegOnlyCex).allFound = []
      then (delegatedScan walletCex ([(posPdaCex, adminAssetCex)].map
          (fun p => (id p.2, p.1))) id [(keyStatePdaCex, delegAssetCex)] fetchDelegOnlyCex
          (adminScan walletCex [(posPdaCex, adminAssetCex)] fetchDelegOnlyCex)).allFound
      else (adminScan walletCex [(posPdaCex, adminAssetCex)] fetchDelegOnlyCex).allFound) ∧
    (⟨posPdaCex, 9, delegAssetCex, false, id adminAssetCex⟩ : Candidate) ∈
      (discoverPositionCandidates id id walletCex [(posPdaCex, adminAssetCex)]
        [(keyStatePdaCex, delegAssetCex)] fetchDelegOnlyCex).allFound :=
  ⟨(delegated_path_gated_and_complete id id walletCex [(posPdaCex, adminAssetCex)]
      [(keyStatePdaCex, delegAssetCex)] fetchDelegOnlyCex).1,
   (delegated_path_gated_and_complete id id walletCex [(posPdaCex, adminAssetCex)]
      [(keyStatePdaCex, delegAssetCex)] fetchDelegOnlyCex).2 (by decide) keyStatePdaCex
     delegAssetCex delegAssetBytesCex { owner := walletCex, updateAuthority := none } 9
     adminAssetCex posPdaCex (by decide) (by decide) (by decide) (by decide) (by decide)
     (by decide) (by decide) (by decide)⟩

end Hardig
